import Mathlib

/-!
Verification development for the virtual-memory image editor
(`src/js/memory/memoryManager.js` and the image-processor module).

The JavaScript source is shallowly embedded:

* JS numbers are modelled by `JSNum` (exact rationals plus the IEEE special
  values `Infinity`, `-Infinity`, `NaN` that the contrast formula can reach);
  finite float64 arithmetic is idealised as exact rational arithmetic.
* `Uint8ClampedArray` buffers are `List Nat` of byte values; an out-of-range
  `List.set` is a no-op, exactly like an out-of-range typed-array store, and
  out-of-range reads are modelled by `List.getD _ 0` (storing the resulting
  `undefined` into a typed array yields 0).
* `Date.now()` is modelled by a strictly monotone logical clock carried in the
  state (`now`), one tick per call.
* The `Map` page table (string keys `page_i`) is an insertion-ordered
  association list keyed by the numeric page index `i`.
* `eventBus.emit` is modelled by appending to an event log in the state.
-/

namespace ImageEditorVM

/-- Model of a JavaScript number: an exact rational, or one of the IEEE
special values that arise from division by zero. -/
inductive JSNum where
  | num (q : ℚ)
  | posInf
  | negInf
  | nan
deriving DecidableEq

namespace JSNum

/-- JS addition, including the special-value rules. -/
def add : JSNum → JSNum → JSNum
  | nan, _ => nan
  | _, nan => nan
  | num a, num b => num (a + b)
  | posInf, negInf => nan
  | negInf, posInf => nan
  | posInf, _ => posInf
  | _, posInf => posInf
  | negInf, _ => negInf
  | _, negInf => negInf

/-- JS negation. -/
def neg : JSNum → JSNum
  | nan => nan
  | num a => num (-a)
  | posInf => negInf
  | negInf => posInf

/-- JS subtraction (`x - y` behaves as `x + (-y)`). -/
def sub (a b : JSNum) : JSNum := add a (neg b)

/-- JS multiplication, including `0 * Infinity = NaN` and the sign rules. -/
def mul : JSNum → JSNum → JSNum
  | nan, _ => nan
  | _, nan => nan
  | num a, num b => num (a * b)
  | num a, posInf => if a > 0 then posInf else if a < 0 then negInf else nan
  | posInf, num a => if a > 0 then posInf else if a < 0 then negInf else nan
  | num a, negInf => if a > 0 then negInf else if a < 0 then posInf else nan
  | negInf, num a => if a > 0 then negInf else if a < 0 then posInf else nan
  | posInf, posInf => posInf
  | negInf, negInf => posInf
  | posInf, negInf => negInf
  | negInf, posInf => negInf

/-- JS division; a nonzero finite number divided by zero gives a signed
infinity, `0 / 0` gives `NaN`. -/
def div : JSNum → JSNum → JSNum
  | nan, _ => nan
  | _, nan => nan
  | num a, num b =>
      if b = 0 then (if a > 0 then posInf else if a < 0 then negInf else nan)
      else num (a / b)
  | num _, posInf => num 0
  | num _, negInf => num 0
  | posInf, num b => if b < 0 then negInf else posInf
  | negInf, num b => if b < 0 then posInf else negInf
  | posInf, posInf => nan
  | posInf, negInf => nan
  | negInf, posInf => nan
  | negInf, negInf => nan

/-- `Math.round`: for finite arguments `⌊x + 1/2⌋` (round half toward
positive infinity); special values pass through. -/
def round : JSNum → JSNum
  | nan => nan
  | posInf => posInf
  | negInf => negInf
  | num q => num (((q + 1/2).floor : ℤ) : ℚ)

/-- `Math.min` (NaN-contagious). -/
def jmin : JSNum → JSNum → JSNum
  | nan, _ => nan
  | _, nan => nan
  | num a, num b => num (min a b)
  | negInf, _ => negInf
  | _, negInf => negInf
  | posInf, x => x
  | x, posInf => x

/-- `Math.max` (NaN-contagious). -/
def jmax : JSNum → JSNum → JSNum
  | nan, _ => nan
  | _, nan => nan
  | num a, num b => num (max a b)
  | posInf, _ => posInf
  | _, posInf => posInf
  | negInf, x => x
  | x, negInf => x

/-- Round half to even on an exact rational (the rounding used when a JS
number is stored into a `Uint8ClampedArray`). -/
def roundHalfEven (q : ℚ) : ℤ :=
  let f := q.floor
  let r := q - f
  if r < 1/2 then f else if 1/2 < r then f + 1 else if f % 2 = 0 then f else f + 1

/-- Conversion performed by an assignment `uint8ClampedArray[i] = v`:
NaN becomes 0, the value is clamped to `[0, 255]` and rounded half to even. -/
def toUint8Clamped : JSNum → ℕ
  | nan => 0
  | posInf => 255
  | negInf => 0
  | num q => if q ≤ 0 then 0 else if 255 ≤ q then 255 else (roundHalfEven q).toNat

end JSNum

/-- Byte buffer (`Uint8ClampedArray` contents). -/
abbrev Bytes := List ℕ

/-- Reading `data[i]` from a typed array inside arithmetic. -/
def ofByte (n : ℕ) : JSNum := JSNum.num n

/-- The source helper `clamp(value)`:
`Math.max(0, Math.min(255, Math.round(value)))`. -/
def clamp (v : JSNum) : JSNum :=
  JSNum.jmax (JSNum.num 0) (JSNum.jmin (JSNum.num 255) (JSNum.round v))

/-- One pass of a `for (i = 0; i < data.length; i += 4)` loop that rewrites
each RGBA quadruple in place. All image buffers in this system have
pixel-aligned length (a multiple of 4), which the callers guarantee. -/
def mapPix (f : ℕ → ℕ → ℕ → ℕ → ℕ × ℕ × ℕ × ℕ) : Bytes → Bytes
  | r :: g :: b :: a :: rest =>
      let p := f r g b a
      p.1 :: p.2.1 :: p.2.2.1 :: p.2.2.2 :: mapPix f rest
  | l => l

/-- `applyBrightness` from the image processor. -/
def applyBrightness (data : Bytes) (brightness : ℚ) : Bytes :=
  let factor : ℚ := brightness / 100 * 255
  mapPix (fun r g b a =>
    (JSNum.toUint8Clamped (clamp (JSNum.add (ofByte r) (JSNum.num factor))),
     JSNum.toUint8Clamped (clamp (JSNum.add (ofByte g) (JSNum.num factor))),
     JSNum.toUint8Clamped (clamp (JSNum.add (ofByte b) (JSNum.num factor))),
     a)) data

/-- `applyContrast` from the image processor; note the factor's denominator
`255 * (259 - contrast)` is zero at `contrast = 259`. -/
def applyContrast (data : Bytes) (contrast : ℚ) : Bytes :=
  let factor : JSNum :=
    JSNum.div (JSNum.num (259 * (contrast + 100))) (JSNum.num (255 * (259 - contrast)))
  mapPix (fun r g b a =>
    (JSNum.toUint8Clamped
       (clamp (JSNum.add (JSNum.mul factor (JSNum.sub (ofByte r) (JSNum.num 128)))
          (JSNum.num 128))),
     JSNum.toUint8Clamped
       (clamp (JSNum.add (JSNum.mul factor (JSNum.sub (ofByte g) (JSNum.num 128)))
          (JSNum.num 128))),
     JSNum.toUint8Clamped
       (clamp (JSNum.add (JSNum.mul factor (JSNum.sub (ofByte b) (JSNum.num 128)))
          (JSNum.num 128))),
     a)) data

/-- `applyGrayscale`: each channel becomes the (unclamped) average, stored
through the typed-array conversion. -/
def applyGrayscale (data : Bytes) : Bytes :=
  mapPix (fun r g b a =>
    let avg := JSNum.div (JSNum.num ((r : ℚ) + g + b)) (JSNum.num 3)
    (JSNum.toUint8Clamped avg, JSNum.toUint8Clamped avg, JSNum.toUint8Clamped avg, a)) data

/-- `applySepia` from the image processor. -/
def applySepia (data : Bytes) : Bytes :=
  mapPix (fun r g b a =>
    (JSNum.toUint8Clamped
       (clamp (JSNum.num ((r : ℚ) * (393/1000) + (g : ℚ) * (769/1000) + (b : ℚ) * (189/1000)))),
     JSNum.toUint8Clamped
       (clamp (JSNum.num ((r : ℚ) * (349/1000) + (g : ℚ) * (686/1000) + (b : ℚ) * (168/1000)))),
     JSNum.toUint8Clamped
       (clamp (JSNum.num ((r : ℚ) * (272/1000) + (g : ℚ) * (534/1000) + (b : ℚ) * (131/1000)))),
     a)) data

/-- `applyInvert` from the image processor. -/
def applyInvert (data : Bytes) : Bytes :=
  mapPix (fun r g b a =>
    (JSNum.toUint8Clamped (JSNum.sub (JSNum.num 255) (ofByte r)),
     JSNum.toUint8Clamped (JSNum.sub (JSNum.num 255) (ofByte g)),
     JSNum.toUint8Clamped (JSNum.sub (JSNum.num 255) (ofByte b)),
     a)) data

/-- Transform-request adjustments (`{brightness, contrast}`). -/
structure Adjustments where
  brightness : ℚ
  contrast : ℚ
deriving DecidableEq

/-- Filter selector strings of the image processor. -/
inductive Filter where
  | none
  | grayscale
  | sepia
  | invert
deriving DecidableEq

/-- `processChunk(chunkData, adjustments, filter)`: copies the chunk, applies
brightness (if nonzero), contrast (if nonzero), then the selected filter, and
returns the processed copy. -/
def processChunk (chunkData : Bytes) (adjustments : Adjustments) (filter : Filter) : Bytes :=
  let processedData := chunkData
  let processedData :=
    if adjustments.brightness = 0 then processedData
    else applyBrightness processedData adjustments.brightness
  let processedData :=
    if adjustments.contrast = 0 then processedData
    else applyContrast processedData adjustments.contrast
  match filter with
  | Filter.grayscale => applyGrayscale processedData
  | Filter.sepia => applySepia processedData
  | Filter.invert => applyInvert processedData
  | Filter.none => processedData

/-- Page status: `active` is the source's `'active'` (spec: Resident),
`inactive` is `'inactive'` (spec: Evicted). -/
inductive Status where
  | active
  | inactive
deriving DecidableEq

/-- A page-table record, as built by `storeImage`. `data = none` models the
`null` stored on eviction. -/
structure Page where
  data : Option Bytes
  status : Status
  lastAccessed : ℕ
  startPixel : ℕ
  endPixel : ℕ
  startIndex : ℕ
  endIndex : ℕ
deriving DecidableEq

/-- The `stats` record of the memory manager. `memoryUsage` is a JS number
(rational); the page counters only ever move by one so ℕ and ℤ suffice. -/
structure Stats where
  activePages : ℤ
  inactivePages : ℤ
  pageHits : ℕ
  pageFaults : ℕ
  memoryUsage : ℚ
  totalWidth : ℕ
  totalHeight : ℕ
  totalPixels : ℕ
  totalPages : ℕ
deriving DecidableEq

/-- Signals emitted on the event bus by the memory manager. -/
inductive Event where
  | swappedOut (pageId : ℕ)
  | swappedIn (pageId : ℕ)
  | statsUpdated (st : Stats)
deriving DecidableEq

/-- Configuration of `setupMemoryManager` (both in MB, JS numbers). -/
structure Config where
  memoryLimit : ℚ
  pageSize : ℚ
deriving DecidableEq

/-- Whole-manager state: the insertion-ordered page table (keys are the
numeric index `i` of the JS string key `page_i`), the statistics, the
logical `Date.now()` clock, and the log of emitted events. -/
structure MMState where
  pageTable : List (ℕ × Page)
  stats : Stats
  now : ℕ
  events : List Event
deriving DecidableEq

/-- The all-zero statistics record (the object literal the source resets
`stats` to; the image-metadata fields are absent there, modelled as 0). -/
def Stats.init : Stats :=
  { activePages := 0, inactivePages := 0, pageHits := 0, pageFaults := 0,
    memoryUsage := 0, totalWidth := 0, totalHeight := 0, totalPixels := 0, totalPages := 0 }

/-- `pageTable.get(pageId)` (first entry with the key; a JS `Map` has unique
keys, which reachable states satisfy). -/
def findPage (t : List (ℕ × Page)) (pid : ℕ) : Option Page :=
  (t.find? (fun e => e.1 = pid)).map (fun e => e.2)

/-- In-place mutation of the record stored under a key (JS object mutation
through `pageTable.get`): the entry keeps its position. -/
def updatePage (t : List (ℕ × Page)) (pid : ℕ) (f : Page → Page) : List (ℕ × Page) :=
  t.map (fun e => if e.1 = pid then (e.1, f e.2) else e)

/-- One comparison of the `swapOutLRUPage` scan: replace the best candidate
when the entry is active and strictly older than it (`oldestTime` starts at
`Infinity`, modelled by the `none` accumulator, against which any active
entry wins). -/
def lruStep (acc : Option (ℕ × ℕ)) (e : ℕ × Page) : Option (ℕ × ℕ) :=
  if e.2.status = Status.active ∧ (∀ b ∈ acc.toList, e.2.lastAccessed < b.2) then
    some (e.1, e.2.lastAccessed)
  else acc

/-- The scan of `swapOutLRUPage`: walk the table in insertion order keeping
the active page with the strictly smallest `lastAccessed` seen so far.
Returns the selected `(pageId, lastAccessed)`, if any active page exists. -/
def lruScan (t : List (ℕ × Page)) : Option (ℕ × ℕ) :=
  t.foldl lruStep none

/-- `getMemoryStats()` returns a copy of `stats`. -/
def getMemoryStats (s : MMState) : Stats := s.stats

/-- `updateMemoryStats()`: emit `memory:stats:updated` with the stats copy. -/
def updateMemoryStats (s : MMState) : MMState :=
  { s with events := s.events ++ [Event.statsUpdated (getMemoryStats s)] }

/-- `swapOutLRUPage()`: find the least recently used active page; if one
exists, null its data, mark it inactive, adjust the gauges and emit
`memory:page:swapped-out`. -/
def swapOutLRUPage (cfg : Config) (s : MMState) : MMState :=
  match lruScan s.pageTable with
  | none => s
  | some lru =>
      { s with
        pageTable := updatePage s.pageTable lru.1
          (fun p => { p with status := Status.inactive, data := none }),
        stats := { s.stats with
          activePages := s.stats.activePages - 1,
          inactivePages := s.stats.inactivePages + 1,
          memoryUsage := s.stats.memoryUsage - cfg.pageSize },
        events := s.events ++ [Event.swappedOut lru.1] }

/-- The part of `swapInPage(pageId)` after the budget check: bail out
(console error only) if the id is unknown; refresh the timestamp if already
active; otherwise rebuild the data as a zero-filled buffer of the recorded
byte range, mark active, refresh the timestamp, adjust gauges and emit
`memory:page:swapped-in`. -/
def swapInPageLoad (cfg : Config) (s : MMState) (pid : ℕ) : MMState :=
  match findPage s.pageTable pid with
  | none => s
  | some page =>
      if page.status = Status.active then
        { s with
          pageTable := updatePage s.pageTable pid (fun p => { p with lastAccessed := s.now }),
          now := s.now + 1 }
      else
        { s with
          pageTable := updatePage s.pageTable pid
            (fun p => { p with
              data := some (List.replicate (p.endIndex - p.startIndex) 0),
              status := Status.active,
              lastAccessed := s.now }),
          now := s.now + 1,
          stats := { s.stats with
            activePages := s.stats.activePages + 1,
            inactivePages := s.stats.inactivePages - 1,
            memoryUsage := s.stats.memoryUsage + cfg.pageSize },
          events := s.events ++ [Event.swappedIn pid] }

/-- `swapInPage(pageId)`: evict first if admitting would exceed the budget,
then load the page (see `swapInPageLoad`). -/
def swapInPage (cfg : Config) (s : MMState) (pid : ℕ) : MMState :=
  swapInPageLoad cfg
    (if s.stats.memoryUsage + cfg.pageSize > cfg.memoryLimit then swapOutLRUPage cfg s else s)
    pid

/-- `clearAllPages()`: empty the table, reset statistics, emit a stats
update. -/
def clearAllPages (s : MMState) : MMState :=
  updateMemoryStats { s with pageTable := [], stats := Stats.init }

/-- An `ImageData`: dimensions plus the RGBA byte buffer. -/
structure ImageData where
  width : ℕ
  height : ℕ
  data : Bytes
deriving DecidableEq

/-- One iteration of the chunk-splitting loop of `storeImage`: slice the
chunk, insert the page (fresh table, so insertion appends), bump the gauges
and evict the LRU page if the budget is now exceeded. -/
def admitPage (cfg : Config) (data : Bytes) (pixelsPerPage totalPixels : ℕ)
    (s : MMState) (i : ℕ) : MMState :=
  let startPixel := i * pixelsPerPage
  let endPixel := min ((i + 1) * pixelsPerPage) totalPixels
  let startIndex := startPixel * 4
  let endIndex := endPixel * 4
  let chunkData := (data.drop startIndex).take (endIndex - startIndex)
  let page : Page :=
    { data := some chunkData, status := Status.active, lastAccessed := s.now,
      startPixel := startPixel, endPixel := endPixel,
      startIndex := startIndex, endIndex := endIndex }
  let s :=
    { s with
      pageTable := s.pageTable ++ [(i, page)],
      now := s.now + 1,
      stats := { s.stats with
        activePages := s.stats.activePages + 1,
        memoryUsage := s.stats.memoryUsage + cfg.pageSize } }
  if s.stats.memoryUsage > cfg.memoryLimit then swapOutLRUPage cfg s else s

/-- `Math.floor(pageSize * 1024 * 1024 / 4)`: pixels per page (4 bytes per
RGBA pixel). -/
def pixelsPerPage (cfg : Config) : ℕ :=
  ((cfg.pageSize * 1024 * 1024) / 4).floor.toNat

/-- The working-set capacity in page units: the largest number of resident
pages whose combined `memoryUsage` does not exceed `memoryLimit` (each
admitted page adds exactly `pageSize` to the usage). -/
def cap (cfg : Config) : ℕ :=
  ((cfg.memoryLimit / cfg.pageSize).floor).toNat

/-- `storeImage(imageData)`: clear the table, derive the page geometry, then
admit every chunk in ascending index order (see `admitPage`), and emit a
final stats update. The source performs no validation of
`data.length` against `width * height * 4`. -/
def storeImage (cfg : Config) (s : MMState) (imageData : ImageData) : MMState :=
  let s := clearAllPages s
  let pixelsPerPage := pixelsPerPage cfg
  let totalPixels := imageData.width * imageData.height
  let totalPages := (totalPixels + pixelsPerPage - 1) / pixelsPerPage
  let s :=
    { s with stats := { s.stats with
        totalWidth := imageData.width, totalHeight := imageData.height,
        totalPixels := totalPixels, totalPages := totalPages } }
  let s := (List.range totalPages).foldl (admitPage cfg imageData.data pixelsPerPage totalPixels) s
  updateMemoryStats s

/-- The body of the rotation loop in `applyChunkToOutput` for one chunk
pixel `i`: recover the flat pixel index from the page's recorded start,
remap `(x, y)` according to the rotation switch (identity in the `default`
branch), and copy the four channel bytes into the output buffer. -/
def rotPixel (startPixel width height rotation : ℕ) (chunkData : Bytes)
    (i : ℕ) (outputData : Bytes) : Bytes :=
  let pixelIndex := startPixel + i
  let x := pixelIndex % width
  let y := pixelIndex / width
  let nxy : ℕ × ℕ :=
    if rotation = 90 then (height - 1 - y, x)
    else if rotation = 180 then (width - 1 - x, height - 1 - y)
    else if rotation = 270 then (y, width - 1 - x)
    else (x, y)
  let newPixelIndex :=
    if rotation = 90 ∨ rotation = 270 then nxy.2 * height + nxy.1 else nxy.2 * width + nxy.1
  let newIndex := newPixelIndex * 4
  let srcIndex := i * 4
  ((((outputData.set newIndex (chunkData.getD srcIndex 0)).set
      (newIndex + 1) (chunkData.getD (srcIndex + 1) 0)).set
      (newIndex + 2) (chunkData.getD (srcIndex + 2) 0)).set
      (newIndex + 3) (chunkData.getD (srcIndex + 3) 0))

/-- The rotation loop over the first `n` chunk pixels (`n` is
`chunkData.length / 4`); pixel `n - 1` is written last. -/
def rotLoop (startPixel width height rotation : ℕ) (chunkData : Bytes) :
    ℕ → Bytes → Bytes
  | 0, outputData => outputData
  | n + 1, outputData =>
      rotPixel startPixel width height rotation chunkData n
        (rotLoop startPixel width height rotation chunkData n outputData)

/-- The no-rotation loop of `applyChunkToOutput`: byte `n - 1` of the chunk
is copied last, to `outputData[startIndex + (n - 1)]`. -/
def copyLoop (startIndex : ℕ) (chunkData : Bytes) : ℕ → Bytes → Bytes
  | 0, outputData => outputData
  | n + 1, outputData =>
      (copyLoop startIndex chunkData n outputData).set (startIndex + n) (chunkData.getD n 0)

/-- `applyChunkToOutput(chunkData, outputData, page, width, height,
rotation)`: with no rotation copy the chunk to its original byte range,
otherwise scatter every chunk pixel to its rotated coordinate. -/
def applyChunkToOutput (chunkData outputData : Bytes) (page : Page)
    (width height rotation : ℕ) : Bytes :=
  if rotation = 0 then copyLoop page.startIndex chunkData chunkData.length outputData
  else rotLoop page.startPixel width height rotation chunkData (chunkData.length / 4) outputData

/-- The fault/hit accounting phase of the page loop (`processImageChunks`
lines 123-129): swap in when the id is missing or the page inactive,
counting a fault; otherwise count a hit. -/
def acquirePage (cfg : Config) (s : MMState) (pid : ℕ) : MMState :=
  match findPage s.pageTable pid with
  | none =>
      let s := swapInPage cfg s pid
      { s with stats := { s.stats with pageFaults := s.stats.pageFaults + 1 } }
  | some page =>
      if page.status = Status.inactive then
        let s := swapInPage cfg s pid
        { s with stats := { s.stats with pageFaults := s.stats.pageFaults + 1 } }
      else
        { s with stats := { s.stats with pageHits := s.stats.pageHits + 1 } }

/-- The chunk-processing phase of the page loop (`processImageChunks` lines
131-141): skip silently if the page or its data is still absent, else
refresh `lastAccessed`, process the chunk with the registered processor and
scatter it into the output buffer. -/
def usePage (adjustments : Adjustments) (filter : Filter)
    (width height rotation : ℕ) (s : MMState) (outputData : Bytes) (pid : ℕ) :
    MMState × Bytes :=
  match findPage s.pageTable pid with
  | none => (s, outputData)
  | some page =>
      match page.data with
      | none => (s, outputData)
      | some chunkData =>
          let s :=
            { s with
              pageTable := updatePage s.pageTable pid (fun p => { p with lastAccessed := s.now }),
              now := s.now + 1 }
          let processedChunkData := processChunk chunkData adjustments filter
          (s, applyChunkToOutput processedChunkData outputData page width height rotation)

/-- One full iteration of the page loop of `processImageChunks`. -/
def processPageStep (cfg : Config) (adjustments : Adjustments) (filter : Filter)
    (width height rotation : ℕ) (acc : MMState × Bytes) (pid : ℕ) : MMState × Bytes :=
  usePage adjustments filter width height rotation (acquirePage cfg acc.1 pid) acc.2 pid

/-- `processImageChunks(originalImage, adjustments, filter, rotation)`: swap
output dimensions for 90/270, allocate a zero-filled output buffer, run the
page loop over the table's keys in insertion order (the registered chunk
processor is `processChunk`), emit a final stats update and return the
output buffer with its dimensions. -/
def processImageChunks (cfg : Config) (s : MMState) (width height : ℕ)
    (adjustments : Adjustments) (filter : Filter) (rotation : ℕ) :
    MMState × Bytes × ℕ × ℕ :=
  let newWidth := if rotation % 180 ≠ 0 then height else width
  let newHeight := if rotation % 180 ≠ 0 then width else height
  let outputData : Bytes := List.replicate (newWidth * newHeight * 4) 0
  let pageIds := s.pageTable.map (fun e => e.1)
  let r := pageIds.foldl (processPageStep cfg adjustments filter width height rotation)
    (s, outputData)
  (updateMemoryStats r.1, r.2, newWidth, newHeight)

/-- The 90-degree remap of a full `width × height` image, as performed by
`applyChunkToOutput` on a chunk covering the whole buffer (page record with
`startPixel = 0`): the engine's coordinate remap `(x, y) ↦ (height-1-y, x)`
into a `height × width` output. -/
def rotate90 (width height : ℕ) (buf : Bytes) : Bytes :=
  applyChunkToOutput buf (List.replicate (height * width * 4) 0)
    { data := none, status := Status.active, lastAccessed := 0,
      startPixel := 0, endPixel := width * height,
      startIndex := 0, endIndex := width * height * 4 }
    width height 90

/-! Concrete fixtures. A page size of `1/262144` MB makes
`pixelsPerPage = Math.floor(pageSize * 1024 * 1024 / 4) = 1`, i.e. one-pixel
pages, so a `memoryLimit` of `k/262144` is a budget of `k` page units. -/

/-- Budget of one page unit, one-pixel pages. -/
def cfgUnit1 : Config := ⟨1/262144, 1/262144⟩

/-- Budget of two page units, one-pixel pages. -/
def cfgUnit2 : Config := ⟨2/262144, 1/262144⟩

/-- Budget of three page units, one-pixel pages. -/
def cfgUnit3 : Config := ⟨3/262144, 1/262144⟩

/-- Ample budget (100 MB), one-pixel pages. -/
def cfgAmple : Config := ⟨100, 1/262144⟩

/-- Fresh manager state. -/
def sEmpty : MMState := ⟨[], Stats.init, 100, []⟩

/-- A 2-pixel image with recognisable bytes. -/
def img2x1 : ImageData := ⟨2, 1, [1, 2, 3, 4, 5, 6, 7, 8]⟩

/-- A 3-pixel image. -/
def img3x1 : ImageData := ⟨3, 1, [1, 2, 3, 4, 5, 6, 7, 8, 9, 10, 11, 12]⟩

/-- A 4-pixel image. -/
def img4x1 : ImageData := ⟨4, 1, [1, 2, 3, 4, 5, 6, 7, 8, 9, 10, 11, 12, 13, 14, 15, 16]⟩

/-- C2: the identity transform over the tight-budget store of `img2x1`. -/
def c2run : MMState × Bytes × ℕ × ℕ :=
  processImageChunks cfgUnit1 (storeImage cfgUnit1 sEmpty img2x1) 2 1 ⟨0, 0⟩ Filter.none 0

/-- C8: a state that already holds a page (id 7), to witness mutation. -/
def sPre : MMState :=
  ⟨[(7, ⟨some [1, 1, 1, 1], Status.active, 3, 0, 1, 0, 4⟩)],
    { Stats.init with activePages := 1, memoryUsage := 1/262144 }, 10, []⟩

/-- C8: a buffer of 4 bytes declared as a 2×1 image (should be 8 bytes). -/
def imgBad : ImageData := ⟨2, 1, [1, 2, 3, 4]⟩

/-- C8: the result of rebuilding from the mismatched buffer. -/
def c8run : MMState := storeImage cfgAmple sPre imgBad

/-- C9: a healthy one-page state for the unknown-page probe. -/
def sOne : MMState :=
  ⟨[(0, ⟨some [9, 9, 9, 9], Status.active, 50, 0, 1, 0, 4⟩)],
    { Stats.init with
      activePages := 1
      memoryUsage := 1/262144
      totalPixels := 2
      totalPages := 2 }, 60, []⟩

/-- C3: rebuild of a 3-page image under a 2-unit budget. -/
def c3run : MMState := storeImage cfgUnit2 sEmpty img3x1

/-- C4: the state after storing 4 one-pixel pages under a 2-unit budget. -/
def c4store : MMState := storeImage cfgUnit2 sEmpty img4x1

/-- C4: one acquisition step of the transform loop under the 2-unit budget
(identity transform; the output buffer is irrelevant to the residency
trace). -/
def c4acquire (acc : MMState × Bytes) (pid : ℕ) : MMState × Bytes :=
  processPageStep cfgUnit2 ⟨0, 0⟩ Filter.none 4 1 0 acc pid

/-- C4: the trace after acquiring pages 0, 1, 2. -/
def c4afterThree : MMState × Bytes :=
  [0, 1, 2].foldl c4acquire (c4store, List.replicate 16 0)

/-- C4: then re-acquiring page 0. -/
def c4afterReacquire : MMState × Bytes := c4acquire c4afterThree 0

/-- C4: then acquiring page 3. -/
def c4afterFinal : MMState × Bytes := c4acquire c4afterReacquire 3

/-- C1 witness fixture: a table whose page 0 is evicted. -/
def c1page : Page := ⟨none, Status.inactive, 5, 0, 1, 0, 4⟩

/-- C1 witness fixture state. -/
def c1s : MMState :=
  ⟨[(0, c1page), (1, ⟨some [5, 6, 7, 8], Status.active, 6, 1, 2, 4, 8⟩)],
    { Stats.init with
      activePages := 1
      inactivePages := 1
      memoryUsage := 1/262144
      totalPixels := 2
      totalPages := 2 }, 90, []⟩

/-! Frame property of a transform run (C10): page geometry and identity are
never touched; a page's stored bytes change only through the eviction
machinery (nulled on swap-out, zero-refilled on fault reload). -/

/-- How a single page record may evolve across a transform run: identity and
geometry are preserved, and the data is either untouched, nulled by an
eviction, or replaced by the zero-filled reload buffer. -/
def PagePreserved (p q : Page) : Prop :=
  q.startPixel = p.startPixel ∧ q.endPixel = p.endPixel ∧ q.startIndex = p.startIndex
    ∧ q.endIndex = p.endIndex
    ∧ (q.data = p.data ∨ q.data = none
        ∨ q.data = some (List.replicate (p.endIndex - p.startIndex) 0))

/-- Entry-wise preservation of the whole page table (same length, same keys
in the same order, each record `PagePreserved`). -/
def TablePreserved (t u : List (ℕ × Page)) : Prop :=
  List.Forall₂ (fun a b => b.1 = a.1 ∧ PagePreserved a.2 b.2) t u

/-! The 90-degree coordinate remap (C6). -/

/-- The output pixel index the rotation loop computes for source pixel `i`
of a full-image chunk at rotation 90: with `x = i % width` and
`y = i / width`, the remap `(x, y) ↦ (height-1-y, x)` lands at flat index
`x * height + (height - 1 - y)` of the `height × width` output. -/
def pix90 (width height i : ℕ) : ℕ :=
  (i % width) * height + (height - 1 - i / width)

/-- C4: an evicted page record for the all-evicted trace fixture. -/
def c4page (j : ℕ) : Page := ⟨none, Status.inactive, j, j, j + 1, j * 4, (j + 1) * 4⟩

/-- C4: four evicted one-pixel pages, nothing resident, budget 3 available. -/
def c4evicted : MMState :=
  ⟨[(0, c4page 0), (1, c4page 1), (2, c4page 2), (3, c4page 3)],
    { Stats.init with
      inactivePages := 4
      totalPixels := 4
      totalPages := 4 }, 100, []⟩

/-- C4: one acquisition under a 3-unit budget. -/
def c4bAcquire (acc : MMState × Bytes) (pid : ℕ) : MMState × Bytes :=
  processPageStep cfgUnit3 ⟨0, 0⟩ Filter.none 4 1 0 acc pid

/-- C4: the budget-3 trace after acquiring 0, 1, 2, then 0 again. -/
def c4bTo4 : MMState × Bytes := [0, 1, 2, 0].foldl c4bAcquire (c4evicted, List.replicate 16 0)

/-- C4: the budget-3 trace after then acquiring 3. -/
def c4bFinal : MMState × Bytes := c4bAcquire c4bTo4 3

/-- C4 witness fixture: pages 0, 2 refreshed recently, page 1 the LRU. -/
def c4ws : MMState :=
  ⟨[(0, ⟨some [1, 1, 1, 1], Status.active, 20, 0, 1, 0, 4⟩),
    (1, ⟨some [2, 2, 2, 2], Status.active, 11, 1, 2, 4, 8⟩),
    (2, ⟨some [3, 3, 3, 3], Status.active, 12, 2, 3, 8, 12⟩)],
    { Stats.init with
      activePages := 3
      memoryUsage := 3/262144
      totalPixels := 3
      totalPages := 3 }, 30, []⟩

/-- The page record that `storeImage` builds for index `j` of an image with
`ppp` pixels per page and `tp` total pixels, admitted at clock `now0 + j`;
an evicted page differs only in its nulled data and status. -/
def storedPage (data : Bytes) (ppp tp now0 j : ℕ) (st : Status) : Page :=
  { data :=
      if st = Status.active then
        some ((data.drop (j * ppp * 4)).take (min ((j + 1) * ppp) tp * 4 - j * ppp * 4))
      else none
    status := st
    lastAccessed := now0 + j
    startPixel := j * ppp
    endPixel := min ((j + 1) * ppp) tp
    startIndex := j * ppp * 4
    endIndex := min ((j + 1) * ppp) tp * 4 }

/-- The residency of page `j` after `m` pages have been admitted under
capacity `c`: the resident set is the window of the `min m c`
most-recently-admitted (highest-numbered) pages. -/
def storedStatus (c m j : ℕ) : Status :=
  if m - min m c ≤ j then Status.active else Status.inactive

/-- The manager state after `storeImage` has cleared the table and admitted
the first `m` pages of `img` (starting from state `s`): pages in ascending
index order, the lowest `m - min m c` of them already evicted (in ascending
order, as the swap-out event log records). -/
def storedState (cfg : Config) (img : ImageData) (s : MMState) (m : ℕ) : MMState :=
  { pageTable :=
      (List.range m).map (fun j =>
        (j, storedPage img.data (pixelsPerPage cfg) (img.width * img.height) s.now j
          (storedStatus (cap cfg) m j)))
    stats :=
      { activePages := ((min m (cap cfg) : ℕ) : ℤ)
        inactivePages := ((m - min m (cap cfg) : ℕ) : ℤ)
        pageHits := 0
        pageFaults := 0
        memoryUsage := ((min m (cap cfg) : ℕ) : ℚ) * cfg.pageSize
        totalWidth := img.width
        totalHeight := img.height
        totalPixels := img.width * img.height
        totalPages :=
          (img.width * img.height + pixelsPerPage cfg - 1) / pixelsPerPage cfg }
    now := s.now + m
    events := s.events ++ [Event.statsUpdated Stats.init]
      ++ (List.range (m - min m (cap cfg))).map Event.swappedOut }

attribute [local semireducible] Rat.add Rat.mul Rat.sub Rat.inv in
/-- C2: with a budget of one unit and two pages, `storeImage` evicts page 0
during rebuild; the identity transform (brightness 0, contrast 0, no filter,
rotation 0) then faults both pages in as zero-filled buffers, so the run
returns the all-zero buffer instead of the stored bytes. This refutes
byte-identity of the identity transform whenever a fault occurs; the zero
reload is the latent bug the spec flags. -/
theorem C2_identity_transform_returns_zeros_after_fault :
    c2run.2.1 = List.replicate 8 0 ∧ img2x1.data ≠ List.replicate 8 0 := by
  constructor
  · decide
  · decide

attribute [local semireducible] Rat.add Rat.mul Rat.sub Rat.inv in
/-- C7: the engine does evaluate the contrast formula at the singular point
`delta = 259`: the zero denominator produces `Infinity`, the per-channel
results `-Infinity`/`NaN`/`Infinity` are clamped to `0`/`0`/`255`, and no
`DegenerateContrast` rejection exists anywhere in the source. -/
theorem C7_contrast259_is_evaluated_not_rejected :
    processChunk [100, 128, 200, 255] ⟨0, 259⟩ Filter.none = [0, 0, 255, 255]
      ∧ applyContrast [100, 128, 200, 255] 259 = [0, 0, 255, 255] := by
  constructor
  · decide
  · decide

attribute [local semireducible] Rat.add Rat.mul Rat.sub Rat.inv in
/-- C8: `storeImage` performs no length validation at all: fed a 4-byte
buffer declared as 2×1 (8 bytes expected), it first destroys the existing
page table, then happily creates both pages — the second one with an empty
data buffer — and returns without any failure. -/
theorem C8_storeImage_accepts_mismatched_buffer :
    imgBad.data.length = 4 ∧ imgBad.width * imgBad.height * 4 = 8
      ∧ c8run.pageTable.map Prod.fst = [0, 1]
      ∧ findPage c8run.pageTable 7 = none
      ∧ (findPage c8run.pageTable 0).map Page.data = some (some [1, 2, 3, 4])
      ∧ (findPage c8run.pageTable 1).map Page.data = some (some []) := by
  refine ⟨by decide, by decide, by decide, by decide, by decide, by decide⟩

attribute [local semireducible] Rat.add Rat.mul Rat.sub Rat.inv in
/-- C9: requesting a page id that is absent from the table does not abort
the run: the body logs to the console, counts a page fault, emits no error
signal (the event log is unchanged), leaves the output buffer as is and
moves on to the next page — the run then completes and returns the buffer
with a hole, contradicting the claim's abort-with-error-signal behaviour. -/
theorem C9_unknown_page_is_silently_skipped :
    findPage sOne.pageTable 5 = none
      ∧ processPageStep cfgAmple ⟨0, 0⟩ Filter.none 2 1 0 (sOne, List.replicate 8 0) 5
          = ({ sOne with stats := { sOne.stats with pageFaults := 1 } },
             List.replicate 8 0) := by
  refine ⟨by decide, by decide⟩

attribute [local semireducible] Rat.add Rat.mul Rat.sub Rat.inv in
/-- C3 counterexample: under a tight budget the rebuild evicts the
LOWEST-numbered page, not the highest: storing 3 one-pixel pages under a
2-unit budget leaves page 0 evicted and pages 1 and 2 resident, and the only
swap-out signal names page 0. Earlier pages are LESS recently touched at
admission time (their timestamps are older), so they are the LRU victims. -/
theorem C3_counterexample_lowest_page_evicted_first :
    (findPage c3run.pageTable 0).map Page.status = some Status.inactive
      ∧ (findPage c3run.pageTable 2).map Page.status = some Status.active
      ∧ c3run.events.filter (fun e => match e with | Event.swappedOut _ => true | _ => false)
          = [Event.swappedOut 0] := by
  refine ⟨by decide, by decide, by decide⟩

attribute [local semireducible] Rat.add Rat.mul Rat.sub Rat.inv in
/-- C4 counterexample: with budget = 2 units and acquisitions 0, 1, 2,
0, 3, the re-acquisition of page 0 is itself a fault (page 0 was already
evicted when 2 was admitted) and evicts page 1 at that point; when page 3 is
then admitted the page evicted is page 2 — not page 1 as the claim states.
The claim's scenario (0 refreshed as a hit, leaving 1 as the LRU victim for
3) requires a budget of three units. -/
theorem C4_counterexample_budget2_evicts_page2_on_admitting_3 :
    c4afterReacquire.1.events.drop c4afterThree.1.events.length
        = [Event.swappedOut 1, Event.swappedIn 0]
      ∧ c4afterFinal.1.events.drop c4afterReacquire.1.events.length
        = [Event.swappedOut 2, Event.swappedIn 3] := by
  refine ⟨by decide, by decide⟩

/-! Lemmas about the page table and the LRU scan. -/

theorem find_updatePage (t : List (ℕ × Page)) (q pid : ℕ) (f : Page → Page) :
    List.find? (fun e => e.1 = pid) (updatePage t q f)
      = (List.find? (fun e => e.1 = pid) t).map
          (fun e => if e.1 = q then (e.1, f e.2) else e) := by
  induction t with
  | nil => rfl
  | cons e t ih =>
      obtain ⟨k, p⟩ := e
      show List.find? _ ((if k = q then (k, f p) else (k, p)) :: updatePage t q f) = _
      by_cases hq : k = q
      · subst hq
        by_cases hp : k = pid
        · subst hp
          simp [List.find?_cons]
        · simp [List.find?_cons, hp, ih]
      · by_cases hp : k = pid
        · subst hp
          simp [List.find?_cons, hq]
        · simp [List.find?_cons, hq, hp, ih]

theorem findPage_updatePage_self (t : List (ℕ × Page)) (pid : ℕ) (f : Page → Page) :
    findPage (updatePage t pid f) pid = (findPage t pid).map f := by
  unfold findPage
  rw [find_updatePage]
  cases hf : List.find? (fun e => e.1 = pid) t with
  | none => rfl
  | some e =>
      have he : e.1 = pid := by simpa using List.find?_some hf
      simp [he]

theorem findPage_updatePage_ne (t : List (ℕ × Page)) (pid q : ℕ) (f : Page → Page)
    (h : q ≠ pid) : findPage (updatePage t q f) pid = findPage t pid := by
  unfold findPage
  rw [find_updatePage]
  cases hf : List.find? (fun e => e.1 = pid) t with
  | none => rfl
  | some e =>
      have he : e.1 = pid := by simpa using List.find?_some hf
      have : e.1 ≠ q := by rw [he]; exact fun hc => h hc.symm
      simp [this]

theorem lruStep_pos (acc : Option (ℕ × ℕ)) (e : ℕ × Page)
    (h : e.2.status = Status.active ∧ ∀ b ∈ acc.toList, e.2.lastAccessed < b.2) :
    lruStep acc e = some (e.1, e.2.lastAccessed) := by
  unfold lruStep
  rw [if_pos h]

theorem lruStep_neg (acc : Option (ℕ × ℕ)) (e : ℕ × Page)
    (h : ¬(e.2.status = Status.active ∧ ∀ b ∈ acc.toList, e.2.lastAccessed < b.2)) :
    lruStep acc e = acc := by
  unfold lruStep
  rw [if_neg h]

/-- Provenance of the scan result: it is either the starting candidate or an
active entry of the scanned list, carrying its id and access time. -/
theorem lruScan_foldl_some (t : List (ℕ × Page)) (acc : Option (ℕ × ℕ)) (r : ℕ × ℕ)
    (h : t.foldl lruStep acc = some r) :
    acc = some r ∨ ∃ e ∈ t, e.2.status = Status.active ∧ r = (e.1, e.2.lastAccessed) := by
  induction t generalizing acc with
  | nil => exact Or.inl h
  | cons e t ih =>
      rw [List.foldl_cons] at h
      by_cases hc : e.2.status = Status.active ∧ (∀ b ∈ acc.toList, e.2.lastAccessed < b.2)
      · rw [lruStep_pos acc e hc] at h
        rcases ih _ h with h1 | ⟨a, ha, hact, hr⟩
        · have hr : r = (e.1, e.2.lastAccessed) := by injection h1 with h2; exact h2.symm
          exact Or.inr ⟨e, List.mem_cons_self _ _, hc.1, hr⟩
        · exact Or.inr ⟨a, List.mem_cons_of_mem _ ha, hact, hr⟩
      · rw [lruStep_neg acc e hc] at h
        rcases ih _ h with h1 | ⟨a, ha, hact, hr⟩
        · exact Or.inl h1
        · exact Or.inr ⟨a, List.mem_cons_of_mem _ ha, hact, hr⟩

/-- An id returned by the LRU scan belongs to the table with active status
and the reported access time. -/
theorem lruScan_mem_active (t : List (ℕ × Page)) (r : ℕ × ℕ) (h : lruScan t = some r) :
    ∃ p, (r.1, p) ∈ t ∧ p.status = Status.active ∧ p.lastAccessed = r.2 := by
  rcases lruScan_foldl_some t none r h with h1 | ⟨e, he, hact, hr⟩
  · exact absurd h1 (by simp)
  · exact ⟨e.2, by rw [hr]; exact he, hact, by rw [hr]⟩

/-- Once the scan holds a candidate at least as old as every remaining
active entry, it keeps it. -/
theorem lruScan_foldl_stable (t : List (ℕ × Page)) (b : ℕ × ℕ)
    (hstable : ∀ e ∈ t, e.2.status = Status.active → ¬(e.2.lastAccessed < b.2)) :
    t.foldl lruStep (some b) = some b := by
  induction t with
  | nil => rfl
  | cons e t ih =>
      rw [List.foldl_cons]
      have hne : ¬(e.2.status = Status.active ∧
          ∀ c ∈ (some b).toList, e.2.lastAccessed < c.2) := by
        rintro ⟨hact, hlt⟩
        exact hstable e (List.mem_cons_self _ _) hact (hlt b (by simp))
      rw [lruStep_neg _ _ hne]
      exact ih (fun a ha => hstable a (List.mem_cons_of_mem _ ha))

/-- The scan selects the FIRST active entry that attains the minimum
`lastAccessed` among active entries: decompose the table around an active
entry `e` such that every earlier active entry is strictly younger and every
later active entry is at least as young; the scan returns `e`. With the
table in ascending `pageId` order (as `storeImage` builds it), this is
exactly: smallest `lastAccessed`, ties broken by smallest `pageId`. -/
theorem lruScan_first_min (pre post : List (ℕ × Page)) (e : ℕ × Page)
    (hact : e.2.status = Status.active)
    (hpre : ∀ a ∈ pre, a.2.status = Status.active → e.2.lastAccessed < a.2.lastAccessed)
    (hpost : ∀ a ∈ post, a.2.status = Status.active → e.2.lastAccessed ≤ a.2.lastAccessed) :
    lruScan (pre ++ e :: post) = some (e.1, e.2.lastAccessed) := by
  unfold lruScan
  rw [List.foldl_append, List.foldl_cons]
  have hstep : lruStep (pre.foldl lruStep none) e = some (e.1, e.2.lastAccessed) := by
    cases hacc : pre.foldl lruStep none with
    | none => exact lruStep_pos _ _ ⟨hact, by simp⟩
    | some b =>
        rcases lruScan_foldl_some pre none b hacc with h1 | ⟨a, ha, hacta, hb⟩
        · cases h1
        · refine lruStep_pos _ _ ⟨hact, ?_⟩
          intro c hc
          simp only [Option.toList_some, List.mem_singleton] at hc
          rw [hc, hb]
          exact hpre a ha hacta
  rw [hstep]
  exact lruScan_foldl_stable post _
    (fun a ha hacta => by
      have := hpost a ha hacta
      simp only []
      omega)

theorem findPage_eq_of_nodup_mem (t : List (ℕ × Page)) (pid : ℕ) (p : Page)
    (hnd : (t.map Prod.fst).Nodup) (hmem : (pid, p) ∈ t) : findPage t pid = some p := by
  induction t with
  | nil => cases hmem
  | cons e t ih =>
      rcases List.mem_cons.1 hmem with he | ht
      · simp [findPage, List.find?_cons, ← he]
      · have hne : e.1 ≠ pid := by
          intro hcontra
          have : pid ∈ t.map Prod.fst := List.mem_map.2 ⟨(pid, p), ht, rfl⟩
          rw [List.map_cons, List.nodup_cons, hcontra] at hnd
          exact hnd.1 this
        have := ih (by rw [List.map_cons, List.nodup_cons] at hnd; exact hnd.2) ht
        simpa [findPage, List.find?_cons, hne] using this

theorem swapOutLRUPage_now (cfg : Config) (s : MMState) :
    (swapOutLRUPage cfg s).now = s.now := by
  unfold swapOutLRUPage
  cases lruScan s.pageTable <;> rfl

theorem swapOutLRUPage_hits_faults (cfg : Config) (s : MMState) :
    (swapOutLRUPage cfg s).stats.pageHits = s.stats.pageHits
      ∧ (swapOutLRUPage cfg s).stats.pageFaults = s.stats.pageFaults := by
  unfold swapOutLRUPage
  cases lruScan s.pageTable <;> exact ⟨rfl, rfl⟩

theorem swapOutLRUPage_events (cfg : Config) (s : MMState) :
    (swapOutLRUPage cfg s).events = s.events
      ∨ ∃ v, (swapOutLRUPage cfg s).events = s.events ++ [Event.swappedOut v] := by
  unfold swapOutLRUPage
  cases h : lruScan s.pageTable with
  | none => exact Or.inl rfl
  | some r => exact Or.inr ⟨r.1, rfl⟩

/-- Eviction leaves the first entry found for an INACTIVE page id untouched:
the LRU victim is always an active page, hence (with unique keys) a
different id. -/
theorem swapOutLRUPage_findPage_inactive (cfg : Config) (s : MMState) (pid : ℕ) (page : Page)
    (hnd : (s.pageTable.map Prod.fst).Nodup)
    (hfind : findPage s.pageTable pid = some page)
    (hst : page.status = Status.inactive) :
    findPage (swapOutLRUPage cfg s).pageTable pid = some page := by
  unfold swapOutLRUPage
  cases h : lruScan s.pageTable with
  | none => exact hfind
  | some r =>
      rcases lruScan_mem_active _ _ h with ⟨p, hmem, hact, _⟩
      have hne : r.1 ≠ pid := by
        intro hcontra
        rw [hcontra] at hmem
        rw [findPage_eq_of_nodup_mem _ _ _ hnd hmem] at hfind
        injection hfind with hpp
        rw [← hpp, hact] at hst
        cases hst
      simpa using (findPage_updatePage_ne s.pageTable pid r.1 _ hne).trans hfind

/-- C1: swapping in an evicted page reconstructs its data as a zero-filled
buffer of length `endIndex - startIndex` (not the original bytes), marks it
active, sets `lastAccessed` to the current clock, and appends a swapped-in
signal to the event log (preceded by at most one swapped-out signal if the
budget forced an eviction first). -/
theorem C1_swapInPage_rebuilds_zero_filled_buffer (cfg : Config) (s : MMState)
    (pid : ℕ) (page : Page)
    (hnd : (s.pageTable.map Prod.fst).Nodup)
    (hfind : findPage s.pageTable pid = some page)
    (hst : page.status = Status.inactive) :
    ∃ pre, (pre = [] ∨ ∃ v, pre = [Event.swappedOut v])
      ∧ (swapInPage cfg s pid).events = s.events ++ pre ++ [Event.swappedIn pid]
      ∧ findPage (swapInPage cfg s pid).pageTable pid
          = some { page with
              data := some (List.replicate (page.endIndex - page.startIndex) 0)
              status := Status.active
              lastAccessed := s.now } := by
  have hact : ¬(page.status = Status.active) := by rw [hst]; intro hcontra; cases hcontra
  unfold swapInPage swapInPageLoad
  by_cases hb : s.stats.memoryUsage + cfg.pageSize > cfg.memoryLimit
  · rw [if_pos hb]
    have hfind1 := swapOutLRUPage_findPage_inactive cfg s pid page hnd hfind hst
    simp only [hfind1, hact, if_false, ite_false]
    rcases swapOutLRUPage_events cfg s with hev | ⟨v, hev⟩
    · refine ⟨[], Or.inl rfl, ?_, ?_⟩
      · simp [hev]
      · rw [findPage_updatePage_self, hfind1]
        simp [swapOutLRUPage_now]
    · refine ⟨[Event.swappedOut v], Or.inr ⟨v, rfl⟩, ?_, ?_⟩
      · simp [hev]
      · rw [findPage_updatePage_self, hfind1]
        simp [swapOutLRUPage_now]
  · rw [if_neg hb]
    simp only [hfind, hact, if_false, ite_false]
    refine ⟨[], Or.inl rfl, by simp, ?_⟩
    rw [findPage_updatePage_self, hfind]
    simp

/-- C1 witness: the swap-in theorem applied to the concrete evicted page 0
of `c1s`. -/
theorem C1_swapInPage_rebuilds_zero_filled_buffer_witness :
    ((c1s.pageTable.map Prod.fst).Nodup
        ∧ findPage c1s.pageTable 0 = some c1page
        ∧ c1page.status = Status.inactive)
      ∧ (∃ pre, (pre = [] ∨ ∃ v, pre = [Event.swappedOut v])
          ∧ (swapInPage cfgAmple c1s 0).events = c1s.events ++ pre ++ [Event.swappedIn 0]
          ∧ findPage (swapInPage cfgAmple c1s 0).pageTable 0
              = some { c1page with
                  data := some (List.replicate (c1page.endIndex - c1page.startIndex) 0)
                  status := Status.active
                  lastAccessed := c1s.now }) :=
  ⟨⟨by decide, by decide, by decide⟩,
    C1_swapInPage_rebuilds_zero_filled_buffer cfgAmple c1s 0 c1page
      (by decide) (by decide) (by decide)⟩

theorem swapInPage_hits_faults (cfg : Config) (s : MMState) (pid : ℕ) :
    (swapInPage cfg s pid).stats.pageHits = s.stats.pageHits
      ∧ (swapInPage cfg s pid).stats.pageFaults = s.stats.pageFaults := by
  unfold swapInPage swapInPageLoad
  by_cases hb : s.stats.memoryUsage + cfg.pageSize > cfg.memoryLimit
  · rw [if_pos hb]
    have h1 := swapOutLRUPage_hits_faults cfg s
    cases hfd : findPage (swapOutLRUPage cfg s).pageTable pid with
    | none => simpa [hfd] using h1
    | some pg =>
        by_cases hst : pg.status = Status.active <;> simp [hfd, hst, h1.1, h1.2]
  · rw [if_neg hb]
    cases hfd : findPage s.pageTable pid with
    | none => simp [hfd]
    | some pg =>
        by_cases hst : pg.status = Status.active <;> simp [hfd, hst]

/-- C5: one acquisition in the transform loop: if the requested page is
Resident (active) the hit counter increments and the fault counter is
untouched; if it is Evicted (inactive) the fault counter increments by
exactly one and the hit counter is untouched. -/
theorem C5_hit_and_fault_accounting (cfg : Config) (adjustments : Adjustments)
    (filter : Filter) (width height rotation : ℕ) (s : MMState) (outputData : Bytes)
    (pid : ℕ) (page : Page)
    (hfind : findPage s.pageTable pid = some page) :
    (page.status = Status.active →
      (processPageStep cfg adjustments filter width height rotation
          (s, outputData) pid).1.stats.pageFaults = s.stats.pageFaults
        ∧ (processPageStep cfg adjustments filter width height rotation
            (s, outputData) pid).1.stats.pageHits = s.stats.pageHits + 1)
      ∧ (page.status = Status.inactive →
        (processPageStep cfg adjustments filter width height rotation
            (s, outputData) pid).1.stats.pageFaults = s.stats.pageFaults + 1
          ∧ (processPageStep cfg adjustments filter width height rotation
              (s, outputData) pid).1.stats.pageHits = s.stats.pageHits) := by
  constructor
  · intro hact
    have hni : ¬(page.status = Status.inactive) := by
      rw [hact]; intro hcontra; cases hcontra
    unfold processPageStep acquirePage usePage
    simp only [hfind, hni, if_false, ite_false]
    cases hd : page.data <;> simp [hd]
  · intro hinact
    unfold processPageStep acquirePage usePage
    simp only [hfind, hinact, if_true, ite_true]
    have h1 := swapInPage_hits_faults cfg s pid
    cases hfd2 : findPage (swapInPage cfg s pid).pageTable pid with
    | none => simp [hfd2, h1.1, h1.2]
    | some page2 => cases hd2 : page2.data <;> simp [hfd2, hd2, h1.1, h1.2]

/-- C5 witness: accounting checked on the concrete two-page state `c1s`
(page 0 evicted, page 1 resident). -/
theorem C5_hit_and_fault_accounting_witness :
    (findPage c1s.pageTable 0 = some c1page)
      ∧ (c1page.status = Status.active →
          (processPageStep cfgAmple ⟨0, 0⟩ Filter.none 2 1 0
              (c1s, List.replicate 8 0) 0).1.stats.pageFaults = c1s.stats.pageFaults
            ∧ (processPageStep cfgAmple ⟨0, 0⟩ Filter.none 2 1 0
                (c1s, List.replicate 8 0) 0).1.stats.pageHits = c1s.stats.pageHits + 1)
      ∧ (c1page.status = Status.inactive →
          (processPageStep cfgAmple ⟨0, 0⟩ Filter.none 2 1 0
              (c1s, List.replicate 8 0) 0).1.stats.pageFaults = c1s.stats.pageFaults + 1
            ∧ (processPageStep cfgAmple ⟨0, 0⟩ Filter.none 2 1 0
                (c1s, List.replicate 8 0) 0).1.stats.pageHits = c1s.stats.pageHits) :=
  ⟨by decide,
    (C5_hit_and_fault_accounting cfgAmple ⟨0, 0⟩ Filter.none 2 1 0 c1s
      (List.replicate 8 0) 0 c1page (by decide)).1,
    (C5_hit_and_fault_accounting cfgAmple ⟨0, 0⟩ Filter.none 2 1 0 c1s
      (List.replicate 8 0) 0 c1page (by decide)).2⟩

theorem pagePreserved_refl (p : Page) : PagePreserved p p :=
  ⟨rfl, rfl, rfl, rfl, Or.inl rfl⟩

theorem pagePreserved_trans (p q r : Page) (h1 : PagePreserved p q)
    (h2 : PagePreserved q r) : PagePreserved p r := by
  obtain ⟨m1, m2, m3, m4, hd1⟩ := h1
  obtain ⟨n1, n2, n3, n4, hd2⟩ := h2
  refine ⟨n1.trans m1, n2.trans m2, n3.trans m3, n4.trans m4, ?_⟩
  rcases hd2 with h | h | h
  · rw [h]; exact hd1
  · exact Or.inr (Or.inl h)
  · rw [h, m4, m3]; exact Or.inr (Or.inr rfl)

theorem tablePreserved_refl (t : List (ℕ × Page)) : TablePreserved t t := by
  induction t with
  | nil => exact List.Forall₂.nil
  | cons e t ih => exact List.Forall₂.cons ⟨rfl, pagePreserved_refl e.2⟩ ih

theorem tablePreserved_trans (t u v : List (ℕ × Page))
    (h1 : TablePreserved t u) (h2 : TablePreserved u v) : TablePreserved t v := by
  induction h1 generalizing v with
  | nil => cases h2; exact List.Forall₂.nil
  | cons ha ht ih =>
      cases h2 with
      | cons hb hu =>
          exact List.Forall₂.cons
            ⟨hb.1.trans ha.1, pagePreserved_trans _ _ _ ha.2 hb.2⟩ (ih _ hu)

theorem tablePreserved_updatePage (t : List (ℕ × Page)) (pid : ℕ) (f : Page → Page)
    (hf : ∀ p, PagePreserved p (f p)) : TablePreserved t (updatePage t pid f) := by
  induction t with
  | nil => exact List.Forall₂.nil
  | cons e t ih =>
      refine List.Forall₂.cons ?_ ih
      show (if e.1 = pid then (e.1, f e.2) else e).1 = e.1
        ∧ PagePreserved e.2 (if e.1 = pid then (e.1, f e.2) else e).2
      by_cases h : e.1 = pid
      · rw [if_pos h]
        exact ⟨rfl, hf e.2⟩
      · rw [if_neg h]
        exact ⟨rfl, pagePreserved_refl e.2⟩

theorem tablePreserved_swapOut (cfg : Config) (s : MMState) :
    TablePreserved s.pageTable (swapOutLRUPage cfg s).pageTable := by
  unfold swapOutLRUPage
  cases lruScan s.pageTable with
  | none => exact tablePreserved_refl _
  | some r =>
      exact tablePreserved_updatePage s.pageTable r.1
        (fun p => { p with status := Status.inactive, data := none })
        (fun p => ⟨rfl, rfl, rfl, rfl, Or.inr (Or.inl rfl)⟩)

theorem tablePreserved_swapInLoad (cfg : Config) (s : MMState) (pid : ℕ) :
    TablePreserved s.pageTable (swapInPageLoad cfg s pid).pageTable := by
  unfold swapInPageLoad
  split
  · exact tablePreserved_refl _
  · split
    · exact tablePreserved_updatePage s.pageTable pid
        (fun p => { p with lastAccessed := s.now })
        (fun p => ⟨rfl, rfl, rfl, rfl, Or.inl rfl⟩)
    · exact tablePreserved_updatePage s.pageTable pid
        (fun p => { p with
          data := some (List.replicate (p.endIndex - p.startIndex) 0),
          status := Status.active,
          lastAccessed := s.now })
        (fun p => ⟨rfl, rfl, rfl, rfl, Or.inr (Or.inr rfl)⟩)

theorem tablePreserved_swapIn (cfg : Config) (s : MMState) (pid : ℕ) :
    TablePreserved s.pageTable (swapInPage cfg s pid).pageTable := by
  unfold swapInPage
  by_cases hb : s.stats.memoryUsage + cfg.pageSize > cfg.memoryLimit
  · rw [if_pos hb]
    exact tablePreserved_trans _ _ _ (tablePreserved_swapOut cfg s)
      (tablePreserved_swapInLoad cfg (swapOutLRUPage cfg s) pid)
  · rw [if_neg hb]
    exact tablePreserved_swapInLoad cfg s pid

theorem tablePreserved_acquirePage (cfg : Config) (s : MMState) (pid : ℕ) :
    TablePreserved s.pageTable (acquirePage cfg s pid).pageTable := by
  unfold acquirePage
  split
  · exact tablePreserved_swapIn cfg s pid
  · split
    · exact tablePreserved_swapIn cfg s pid
    · exact tablePreserved_refl _

theorem tablePreserved_usePage (adjustments : Adjustments) (filter : Filter)
    (width height rotation : ℕ) (s : MMState) (outputData : Bytes) (pid : ℕ) :
    TablePreserved s.pageTable
      (usePage adjustments filter width height rotation s outputData pid).1.pageTable := by
  unfold usePage
  split
  · exact tablePreserved_refl _
  · split
    · exact tablePreserved_refl _
    · exact tablePreserved_updatePage s.pageTable pid
        (fun p => { p with lastAccessed := s.now })
        (fun p => ⟨rfl, rfl, rfl, rfl, Or.inl rfl⟩)

theorem tablePreserved_processPageStep (cfg : Config) (adjustments : Adjustments)
    (filter : Filter) (width height rotation : ℕ) (acc : MMState × Bytes) (pid : ℕ) :
    TablePreserved acc.1.pageTable
      (processPageStep cfg adjustments filter width height rotation acc pid).1.pageTable := by
  unfold processPageStep
  exact tablePreserved_trans _ _ _ (tablePreserved_acquirePage cfg acc.1 pid)
    (tablePreserved_usePage adjustments filter width height rotation _ acc.2 pid)

theorem tablePreserved_foldl (cfg : Config) (adjustments : Adjustments) (filter : Filter)
    (width height rotation : ℕ) (pids : List ℕ) (s : MMState) (outputData : Bytes) :
    TablePreserved s.pageTable
      ((pids.foldl (processPageStep cfg adjustments filter width height rotation)
        (s, outputData)).1).pageTable := by
  induction pids generalizing s outputData with
  | nil => exact tablePreserved_refl _
  | cons pid pids ih =>
      rw [List.foldl_cons]
      exact tablePreserved_trans _ _ _
        (tablePreserved_processPageStep cfg adjustments filter width height rotation
          (s, outputData) pid)
        (ih (processPageStep cfg adjustments filter width height rotation (s, outputData) pid).1
          (processPageStep cfg adjustments filter width height rotation (s, outputData) pid).2)

theorem mapPix_length (f : ℕ → ℕ → ℕ → ℕ → ℕ × ℕ × ℕ × ℕ) :
    ∀ l : Bytes, (mapPix f l).length = l.length
  | [] => rfl
  | [_] => rfl
  | [_, _] => rfl
  | [_, _, _] => rfl
  | _ :: _ :: _ :: _ :: rest => by
      simp only [mapPix, List.length_cons]
      rw [mapPix_length f rest]

theorem processChunk_length (chunkData : Bytes) (adjustments : Adjustments)
    (filter : Filter) : (processChunk chunkData adjustments filter).length
      = chunkData.length := by
  unfold processChunk
  cases filter <;>
    simp only [applyBrightness, applyContrast, applyGrayscale, applySepia, applyInvert] <;>
    split_ifs <;>
    simp [mapPix_length]

/-- C10: the embedded `processChunk` is a pure function of its input that
builds its result from a fresh copy — its output is a new buffer of the same
length and the input buffer appears unchanged to the caller — and a whole
transform run preserves every page-table entry (key, geometry) and leaves
every page's stored bytes unchanged, except that the eviction machinery may
null a page's data (swap-out) or replace it by the zero-filled reload
buffer (swap-in after eviction). -/
theorem C10_processChunk_pure_and_run_preserves_pages :
    (∀ (chunkData : Bytes) (adjustments : Adjustments) (filter : Filter),
        (processChunk chunkData adjustments filter).length = chunkData.length)
      ∧ ∀ (cfg : Config) (s : MMState) (width height : ℕ) (adjustments : Adjustments)
          (filter : Filter) (rotation : ℕ),
          TablePreserved s.pageTable
            (processImageChunks cfg s width height adjustments filter rotation).1.pageTable := by
  constructor
  · exact processChunk_length
  · intro cfg s width height adjustments filter rotation
    unfold processImageChunks
    simp only [updateMemoryStats]
    exact tablePreserved_foldl cfg adjustments filter width height rotation _ s _

theorem getD_set_self (l : Bytes) (i v : ℕ) (h : i < l.length) :
    (l.set i v).getD i 0 = v := by
  simp [List.getD_eq_getElem?_getD, List.getElem?_set_self h]

theorem getD_set_ne (l : Bytes) (i j v : ℕ) (h : i ≠ j) :
    (l.set i v).getD j 0 = l.getD j 0 := by
  simp [List.getD_eq_getElem?_getD, List.getElem?_set_ne h]

theorem rotPixel_90 (width height : ℕ) (chunkData : Bytes) (i : ℕ) (outputData : Bytes) :
    rotPixel 0 width height 90 chunkData i outputData
      = ((((outputData.set (pix90 width height i * 4) (chunkData.getD (i * 4) 0)).set
            (pix90 width height i * 4 + 1) (chunkData.getD (i * 4 + 1) 0)).set
            (pix90 width height i * 4 + 2) (chunkData.getD (i * 4 + 2) 0)).set
            (pix90 width height i * 4 + 3) (chunkData.getD (i * 4 + 3) 0)) := by
  unfold rotPixel pix90
  norm_num

theorem rotLoop_length (startPixel width height rotation : ℕ) (chunkData : Bytes) :
    ∀ (n : ℕ) (outputData : Bytes),
      (rotLoop startPixel width height rotation chunkData n outputData).length
        = outputData.length
  | 0, _ => rfl
  | n + 1, outputData => by
      simp [rotLoop, rotPixel,
        rotLoop_length startPixel width height rotation chunkData n outputData]

theorem copyLoop_length (startIndex : ℕ) (chunkData : Bytes) :
    ∀ (n : ℕ) (outputData : Bytes),
      (copyLoop startIndex chunkData n outputData).length = outputData.length
  | 0, _ => rfl
  | n + 1, outputData => by
      simp [copyLoop, copyLoop_length startIndex chunkData n outputData]

theorem rotate90_length (width height : ℕ) (buf : Bytes) :
    (rotate90 width height buf).length = height * width * 4 := by
  unfold rotate90 applyChunkToOutput
  rw [if_neg (by decide)]
  rw [rotLoop_length]
  simp

theorem mul_add_inj (H a b a2 b2 : ℕ) (hb : b < H) (hb2 : b2 < H)
    (heq : a * H + b = a2 * H + b2) : a = a2 ∧ b = b2 := by
  have h1 : (a * H + b) % H = b := by
    rw [Nat.mul_comm a H, Nat.mul_add_mod]; exact Nat.mod_eq_of_lt hb
  have h2 : (a2 * H + b2) % H = b2 := by
    rw [Nat.mul_comm a2 H, Nat.mul_add_mod]; exact Nat.mod_eq_of_lt hb2
  have hbb : b = b2 := by rw [← h1, ← h2, heq]
  refine ⟨?_, hbb⟩
  have hH : 0 < H := Nat.lt_of_le_of_lt (Nat.zero_le b) hb
  have hmul : a * H = a2 * H := by omega
  exact Nat.eq_of_mul_eq_mul_right hH hmul

theorem pix90_lt (width height i : ℕ) (hi : i < width * height) :
    pix90 width height i < width * height := by
  have hw : 0 < width := by
    rcases Nat.eq_zero_or_pos width with h0 | h0
    · rw [h0] at hi; simp at hi
    · exact h0
  have hh : 0 < height := by
    rcases Nat.eq_zero_or_pos height with h0 | h0
    · rw [h0] at hi; simp at hi
    · exact h0
  have hx : i % width < width := Nat.mod_lt _ hw
  have hsub : height - 1 - i / width ≤ height - 1 := Nat.sub_le _ _
  unfold pix90
  calc (i % width) * height + (height - 1 - i / width)
      < (i % width) * height + height := by omega
    _ = (i % width + 1) * height := by ring
    _ ≤ width * height := Nat.mul_le_mul_right height (by omega)

theorem pix90_inj (width height i j : ℕ) (hi : i < width * height)
    (hj : j < width * height) (hne : i ≠ j) :
    pix90 width height i ≠ pix90 width height j := by
  intro heq
  have hw : 0 < width := by
    rcases Nat.eq_zero_or_pos width with h0 | h0
    · rw [h0] at hi; simp at hi
    · exact h0
  have hh : 0 < height := by
    rcases Nat.eq_zero_or_pos height with h0 | h0
    · rw [h0] at hi; simp at hi
    · exact h0
  have hyi : i / width < height := Nat.div_lt_of_lt_mul hi
  have hyj : j / width < height := Nat.div_lt_of_lt_mul hj
  have hsi : height - 1 - i / width ≤ height - 1 := Nat.sub_le _ _
  have hsj : height - 1 - j / width ≤ height - 1 := Nat.sub_le _ _
  unfold pix90 at heq
  obtain ⟨hx, hy⟩ := mul_add_inj height _ _ _ _ (by omega) (by omega) heq
  have hdiv : i / width = j / width := by omega
  apply hne
  have d1 : i = width * (i / width) + i % width := (Nat.div_add_mod i width).symm
  rw [hdiv, hx] at d1
  rw [d1, Nat.div_add_mod]

theorem rotLoop90_getD (width height : ℕ) (chunkData outputData : Bytes) :
    ∀ (n : ℕ), n ≤ width * height → outputData.length = width * height * 4 →
      ∀ (i0 c : ℕ), i0 < n → c < 4 →
        (rotLoop 0 width height 90 chunkData n outputData).getD
            (pix90 width height i0 * 4 + c) 0
          = chunkData.getD (i0 * 4 + c) 0 := by
  intro n
  induction n with
  | zero => intro _ _ i0 c hi0 _; cases hi0
  | succ m ih =>
      intro hn hlen i0 c hi0 hc
      have hstep : rotLoop 0 width height 90 chunkData (m + 1) outputData
          = rotPixel 0 width height 90 chunkData m
              (rotLoop 0 width height 90 chunkData m outputData) := rfl
      rw [hstep, rotPixel_90]
      by_cases him : i0 = m
      · subst him
        have hi0wh : i0 < width * height := Nat.lt_of_lt_of_le hi0 hn
        have hp := pix90_lt width height i0 hi0wh
        have hlen2 : (rotLoop 0 width height 90 chunkData i0 outputData).length
            = width * height * 4 := by rw [rotLoop_length]; exact hlen
        have hmul4 : (pix90 width height i0 + 1) * 4 ≤ width * height * 4 :=
          Nat.mul_le_mul_right 4 (Nat.succ_le_of_lt hp)
        interval_cases c
        · rw [getD_set_ne _ _ _ _ (by omega), getD_set_ne _ _ _ _ (by omega),
            getD_set_ne _ _ _ _ (by omega)]
          exact getD_set_self _ _ _ (by simp only [List.length_set, hlen2]; omega)
        · rw [getD_set_ne _ _ _ _ (by omega), getD_set_ne _ _ _ _ (by omega)]
          exact getD_set_self _ _ _ (by simp only [List.length_set, hlen2]; omega)
        · rw [getD_set_ne _ _ _ _ (by omega)]
          exact getD_set_self _ _ _ (by simp only [List.length_set, hlen2]; omega)
        · exact getD_set_self _ _ _ (by simp only [List.length_set, hlen2]; omega)
      · have him2 : i0 < m := by omega
        have hnem : pix90 width height m ≠ pix90 width height i0 :=
          pix90_inj width height m i0 (by omega) (by omega) (by omega)
        rw [getD_set_ne _ _ _ _ (by omega), getD_set_ne _ _ _ _ (by omega),
          getD_set_ne _ _ _ _ (by omega), getD_set_ne _ _ _ _ (by omega)]
        exact ih (by omega) hlen i0 c him2 hc

/-- Gather form of the engine's 90-degree remap on a full image: output
pixel `(X, Y)` of the `height × width` result holds the bytes of source
pixel `(Y, height - 1 - X)`. -/
theorem rotate90_getD (width height : ℕ) (buf : Bytes)
    (hlen : buf.length = width * height * 4)
    (X Y c : ℕ) (hX : X < height) (hY : Y < width) (hc : c < 4) :
    (rotate90 width height buf).getD ((Y * height + X) * 4 + c) 0
      = buf.getD (((height - 1 - X) * width + Y) * 4 + c) 0 := by
  have hw : 0 < width := Nat.lt_of_le_of_lt (Nat.zero_le Y) hY
  have hi0 : (height - 1 - X) * width + Y < width * height := by
    have h1 : height - 1 - X ≤ height - 1 := by omega
    have h2 : (height - 1 - X) * width ≤ (height - 1) * width :=
      Nat.mul_le_mul_right width h1
    have h3 : (height - 1) * width + width = height * width := by
      have : height - 1 + 1 = height := by omega
      calc (height - 1) * width + width = (height - 1 + 1) * width := by ring
        _ = height * width := by rw [this]
    have h4 : width * height = height * width := Nat.mul_comm width height
    omega
  have hpix : pix90 width height ((height - 1 - X) * width + Y) = Y * height + X := by
    unfold pix90
    have hmod : ((height - 1 - X) * width + Y) % width = Y := by
      rw [Nat.mul_comm (height - 1 - X) width, Nat.mul_add_mod]
      exact Nat.mod_eq_of_lt hY
    have hdiv : ((height - 1 - X) * width + Y) / width = height - 1 - X := by
      rw [Nat.mul_comm (height - 1 - X) width, Nat.mul_add_div hw, Nat.div_eq_of_lt hY,
        Nat.add_zero]
    rw [hmod, hdiv]
    have : height - 1 - (height - 1 - X) = X := by omega
    rw [this]
  have hrot : rotate90 width height buf
      = rotLoop 0 width height 90 buf (buf.length / 4) (List.replicate (height * width * 4) 0) := by
    unfold rotate90 applyChunkToOutput
    rw [if_neg (by decide)]
  have hdiv4 : buf.length / 4 = width * height := by rw [hlen]; omega
  rw [← hpix, hrot, hdiv4]
  exact rotLoop90_getD width height buf _ (width * height) (Nat.le_refl _)
    (by simp [Nat.mul_comm width height]) _ c hi0 hc

/-- C6: the engine's 90-degree coordinate remap applied four times is the
identity on every pixel of an arbitrary (not necessarily square)
`width × height` image: each channel byte returns to its original flat
position, and the final buffer has the original length. -/
theorem C6_rotate90_four_times_identity (width height : ℕ) (buf : Bytes)
    (hlen : buf.length = width * height * 4)
    (x y c : ℕ) (hx : x < width) (hy : y < height) (hc : c < 4) :
    (rotate90 height width (rotate90 width height
        (rotate90 height width (rotate90 width height buf)))).getD
        ((y * width + x) * 4 + c) 0
      = buf.getD ((y * width + x) * 4 + c) 0
    ∧ (rotate90 height width (rotate90 width height
        (rotate90 height width (rotate90 width height buf)))).length = buf.length := by
  have hw : 0 < width := Nat.lt_of_le_of_lt (Nat.zero_le x) hx
  have hh : 0 < height := Nat.lt_of_le_of_lt (Nat.zero_le y) hy
  have hlen1 : (rotate90 width height buf).length = height * width * 4 :=
    rotate90_length width height buf
  have hlen2 : (rotate90 height width (rotate90 width height buf)).length
      = width * height * 4 := rotate90_length height width _
  have hlen3 : (rotate90 width height (rotate90 height width
      (rotate90 width height buf))).length = height * width * 4 :=
    rotate90_length width height _
  constructor
  · rw [rotate90_getD height width _ hlen3 x y c hx hy hc]
    rw [rotate90_getD width height _ hlen2 y (width - 1 - x) c hy (by omega) hc]
    have e1 : height - 1 - (height - 1 - y) = y := by omega
    rw [rotate90_getD height width _ hlen1 (width - 1 - x) (height - 1 - y) c
      (by omega) (by omega) hc]
    have e2 : width - 1 - (width - 1 - x) = x := by omega
    rw [e2]
    rw [rotate90_getD width height buf hlen (height - 1 - y) x c (by omega) hx hc]
    rw [e1]
  · rw [rotate90_length, hlen]

/-- C6 witness: the four-fold remap checked on a concrete 2×1 image. -/
theorem C6_rotate90_four_times_identity_witness :
    (([1, 2, 3, 4, 5, 6, 7, 8] : Bytes).length = 2 * 1 * 4
        ∧ 1 < 2 ∧ 0 < 1 ∧ 2 < 4)
      ∧ ((rotate90 1 2 (rotate90 2 1 (rotate90 1 2 (rotate90 2 1
            ([1, 2, 3, 4, 5, 6, 7, 8] : Bytes))))).getD ((0 * 2 + 1) * 4 + 2) 0
          = ([1, 2, 3, 4, 5, 6, 7, 8] : Bytes).getD ((0 * 2 + 1) * 4 + 2) 0
        ∧ (rotate90 1 2 (rotate90 2 1 (rotate90 1 2 (rotate90 2 1
            ([1, 2, 3, 4, 5, 6, 7, 8] : Bytes))))).length
          = ([1, 2, 3, 4, 5, 6, 7, 8] : Bytes).length) :=
  ⟨⟨by decide, by decide, by decide, by decide⟩,
    C6_rotate90_four_times_identity 2 1 [1, 2, 3, 4, 5, 6, 7, 8]
      (by decide) 1 0 2 (by decide) (by decide) (by decide)⟩

attribute [local semireducible] Rat.add Rat.mul Rat.sub Rat.inv in
/-- C4 amended: (i) eviction always selects, among Resident pages only, the
first entry attaining the minimum `lastAccessed` — every earlier entry that
is active is strictly younger, every later active entry at least as young —
which for the ascending-`pageId` tables built by `storeImage` means the
smallest `lastAccessed` with ties broken by smallest `pageId`; and (ii) the
claimed scenario holds with budget = 3 units (not 2): acquiring 0, 1, 2,
then 0 again (a hit refreshing page 0), then 3, evicts page 1 — not
page 0 — when page 3 is admitted. (Under budget 2, page 0 is already
evicted when 2 is admitted, the re-acquisition of 0 is a fault that evicts
page 1, and admitting 3 evicts page 2; see the counterexample.) -/
theorem C4_amended_lru_selects_first_minimum (cfg : Config) (s : MMState)
    (pre post : List (ℕ × Page)) (e : ℕ × Page)
    (hdec : s.pageTable = pre ++ e :: post)
    (hact : e.2.status = Status.active)
    (hpre : ∀ a ∈ pre, a.2.status = Status.active → e.2.lastAccessed < a.2.lastAccessed)
    (hpost : ∀ a ∈ post, a.2.status = Status.active → e.2.lastAccessed ≤ a.2.lastAccessed) :
    lruScan s.pageTable = some (e.1, e.2.lastAccessed)
      ∧ (swapOutLRUPage cfg s).events = s.events ++ [Event.swappedOut e.1]
      ∧ c4bTo4.1.stats.pageHits = 1
      ∧ c4bFinal.1.events.drop c4bTo4.1.events.length
          = [Event.swappedOut 1, Event.swappedIn 3] := by
  have hscan : lruScan s.pageTable = some (e.1, e.2.lastAccessed) := by
    rw [hdec]
    exact lruScan_first_min pre post e hact hpre hpost
  refine ⟨hscan, ?_, by decide, by decide⟩
  unfold swapOutLRUPage
  rw [hscan]

attribute [local semireducible] Rat.add Rat.mul Rat.sub Rat.inv in
/-- C4 witness: the selection rule applied to the concrete three-page table
of `c4ws`, where page 1 holds the minimum `lastAccessed`. -/
theorem C4_amended_lru_selects_first_minimum_witness :
    (c4ws.pageTable
        = [(0, ⟨some [1, 1, 1, 1], Status.active, 20, 0, 1, 0, 4⟩)]
          ++ (1, ⟨some [2, 2, 2, 2], Status.active, 11, 1, 2, 4, 8⟩)
          :: [(2, ⟨some [3, 3, 3, 3], Status.active, 12, 2, 3, 8, 12⟩)])
      ∧ (lruScan c4ws.pageTable = some (1, 11)
          ∧ (swapOutLRUPage cfgAmple c4ws).events = c4ws.events ++ [Event.swappedOut 1]
          ∧ c4bTo4.1.stats.pageHits = 1
          ∧ c4bFinal.1.events.drop c4bTo4.1.events.length
              = [Event.swappedOut 1, Event.swappedIn 3]) :=
  ⟨by decide,
    C4_amended_lru_selects_first_minimum cfgAmple c4ws
      [(0, ⟨some [1, 1, 1, 1], Status.active, 20, 0, 1, 0, 4⟩)]
      [(2, ⟨some [3, 3, 3, 3], Status.active, 12, 2, 3, 8, 12⟩)]
      (1, ⟨some [2, 2, 2, 2], Status.active, 11, 1, 2, 4, 8⟩)
      (by decide) (by decide) (by decide) (by decide)⟩

/-- Usage exceeds the budget exactly when the resident-page count exceeds
the capacity `cap`. -/
theorem cap_spec (cfg : Config) (hpS : 0 < cfg.pageSize) (hmL : 0 ≤ cfg.memoryLimit)
    (k : ℕ) : ((k : ℚ) * cfg.pageSize > cfg.memoryLimit) ↔ cap cfg < k := by
  have hfl : (0 : ℤ) ≤ (cfg.memoryLimit / cfg.pageSize).floor := by
    apply Rat.le_floor.2
    push_cast
    exact div_nonneg hmL (le_of_lt hpS)
  have hcap : ((cap cfg : ℤ)) = (cfg.memoryLimit / cfg.pageSize).floor := by
    unfold cap
    omega
  constructor
  · intro h
    by_contra hc
    push_neg at hc
    have h1 : ((k : ℤ)) ≤ (cfg.memoryLimit / cfg.pageSize).floor := by omega
    have h2 : (k : ℚ) ≤ cfg.memoryLimit / cfg.pageSize := by
      have := Rat.le_floor.1 h1
      push_cast at this
      exact this
    have h3 : (k : ℚ) * cfg.pageSize ≤ cfg.memoryLimit := (le_div_iff₀ hpS).1 h2
    linarith
  · intro h
    by_contra hc
    push_neg at hc
    have h2 : (k : ℚ) ≤ cfg.memoryLimit / cfg.pageSize := (le_div_iff₀ hpS).2 hc
    have h1 : ((k : ℤ)) ≤ (cfg.memoryLimit / cfg.pageSize).floor := by
      apply Rat.le_floor.2
      push_cast
      exact h2
    omega

/-- The LRU scan on a table of the form `(range k).map (j ↦ (j, P j))`
picks index `j0` when everything before `j0` is inactive, `j0` is active,
and no later active entry is strictly older. -/
theorem lruScan_range_map (k : ℕ) (P : ℕ → Page) (j0 : ℕ) (hj0 : j0 < k)
    (hact : (P j0).status = Status.active)
    (hbefore : ∀ j, j < j0 → (P j).status ≠ Status.active)
    (hmono : ∀ j, j0 < j → j < k → (P j).status = Status.active →
      (P j0).lastAccessed ≤ (P j).lastAccessed) :
    lruScan ((List.range k).map (fun j => (j, P j))) = some (j0, (P j0).lastAccessed) := by
  have hsplit : List.range k
      = List.range j0 ++ j0 :: (List.range (k - j0 - 1)).map (fun x => j0 + (x + 1)) := by
    have h1 : k = j0 + (k - j0 - 1 + 1) := by omega
    conv_lhs => rw [h1, List.range_add]
    rw [List.range_succ_eq_map, List.map_cons, List.map_map]
    have h2 : j0 + 0 = j0 := rfl
    rw [h2]
    congr 1
  rw [hsplit, List.map_append, List.map_cons]
  exact lruScan_first_min _ _ _ hact
    (by
      intro a ha hacta
      rw [List.mem_map] at ha
      obtain ⟨j, hj, hja⟩ := ha
      rw [List.mem_range] at hj
      rw [← hja] at hacta
      exact absurd hacta (hbefore j hj))
    (by
      intro a ha hacta
      rw [List.mem_map] at ha
      obtain ⟨j, hj, hja⟩ := ha
      rw [List.mem_map] at hj
      obtain ⟨x, hx, hxj⟩ := hj
      rw [List.mem_range] at hx
      rw [← hja] at hacta
      rw [← hja]
      exact hmono j (by omega) (by omega) hacta)

/-- Updating a keyed range-map table rewrites exactly the targeted index. -/
theorem updatePage_range_map (k : ℕ) (P : ℕ → Page) (pid : ℕ) (f : Page → Page) :
    updatePage ((List.range k).map (fun j => (j, P j))) pid f
      = (List.range k).map (fun j => (j, if j = pid then f (P j) else P j)) := by
  unfold updatePage
  rw [List.map_map]
  apply List.map_congr_left
  intro j _
  by_cases h : j = pid
  · simp [h]
  · simp [h]

theorem storedPage_status (data : Bytes) (ppp tp now0 j : ℕ) (st : Status) :
    (storedPage data ppp tp now0 j st).status = st := rfl

theorem storedPage_lastAccessed (data : Bytes) (ppp tp now0 j : ℕ) (st : Status) :
    (storedPage data ppp tp now0 j st).lastAccessed = now0 + j := rfl

theorem storedPage_active_eq (data : Bytes) (ppp tp now0 j : ℕ) :
    storedPage data ppp tp now0 j Status.active
      = { data := some ((data.drop (j * ppp * 4)).take (min ((j + 1) * ppp) tp * 4 - j * ppp * 4))
          status := Status.active
          lastAccessed := now0 + j
          startPixel := j * ppp
          endPixel := min ((j + 1) * ppp) tp
          startIndex := j * ppp * 4
          endIndex := min ((j + 1) * ppp) tp * 4 } := by
  unfold storedPage
  rw [if_pos rfl]

theorem storedPage_evict (data : Bytes) (ppp tp now0 j : ℕ) (st : Status) :
    { storedPage data ppp tp now0 j st with
        status := Status.inactive, data := none }
      = storedPage data ppp tp now0 j Status.inactive := by
  unfold storedPage
  cases st <;> simp

/-- Effect of `swapOutLRUPage` on a keyed range-map table whose first
active entry `j0` is (weakly) the oldest active entry: that page's data is
nulled, it flips to inactive, the gauges move by one page and a swapped-out
signal is appended. -/
theorem swapOutLRUPage_range_map (cfg : Config) (st : Stats) (now : ℕ)
    (events : List Event) (k : ℕ) (P : ℕ → Page) (j0 : ℕ) (hj0 : j0 < k)
    (hact : (P j0).status = Status.active)
    (hbefore : ∀ j, j < j0 → (P j).status ≠ Status.active)
    (hmono : ∀ j, j0 < j → j < k → (P j).status = Status.active →
      (P j0).lastAccessed ≤ (P j).lastAccessed) :
    swapOutLRUPage cfg ⟨(List.range k).map (fun j => (j, P j)), st, now, events⟩
      = ⟨(List.range k).map (fun j =>
            (j, if j = j0 then { P j with status := Status.inactive, data := none } else P j)),
          { st with
            activePages := st.activePages - 1
            inactivePages := st.inactivePages + 1
            memoryUsage := st.memoryUsage - cfg.pageSize },
          now, events ++ [Event.swappedOut j0]⟩ := by
  unfold swapOutLRUPage
  rw [show (⟨(List.range k).map (fun j => (j, P j)), st, now, events⟩ : MMState).pageTable
      = (List.range k).map (fun j => (j, P j)) from rfl,
    lruScan_range_map k P j0 hj0 hact hbefore hmono]
  show (⟨updatePage ((List.range k).map (fun j => (j, P j))) j0
      (fun p => { p with status := Status.inactive, data := none }), _, _, _⟩ : MMState) = _
  rw [updatePage_range_map]

/-- One step of the `storeImage` admission loop advances the explicit
rebuild state by one page. -/
theorem admitPage_stored (cfg : Config) (img : ImageData) (s : MMState)
    (hpS : 0 < cfg.pageSize) (hmL : 0 ≤ cfg.memoryLimit) (m : ℕ) :
    admitPage cfg img.data (pixelsPerPage cfg) (img.width * img.height)
        (storedState cfg img s m) m
      = storedState cfg img s (m + 1) := by
  simp only [admitPage, storedState]
  by_cases hmc : m < cap cfg
  · have e1 : min m (cap cfg) = m := by omega
    have e2 : min (m + 1) (cap cfg) = m + 1 := by omega
    have hc1 : ¬(((min m (cap cfg) : ℕ) : ℚ) * cfg.pageSize + cfg.pageSize
        > cfg.memoryLimit) := by
      have heq : ((min m (cap cfg) : ℕ) : ℚ) * cfg.pageSize + cfg.pageSize
          = ((min m (cap cfg) + 1 : ℕ) : ℚ) * cfg.pageSize := by push_cast; ring
      rw [heq, cap_spec cfg hpS hmL]
      omega
    rw [if_neg hc1]
    have htable :
        ((List.range m).map (fun j =>
            (j, storedPage img.data (pixelsPerPage cfg) (img.width * img.height) s.now j
              (storedStatus (cap cfg) m j)))
          ++ [(m,
              { data := some ((img.data.drop (m * pixelsPerPage cfg * 4)).take
                  (min ((m + 1) * pixelsPerPage cfg) (img.width * img.height) * 4
                    - m * pixelsPerPage cfg * 4))
                status := Status.active
                lastAccessed := s.now + m
                startPixel := m * pixelsPerPage cfg
                endPixel := min ((m + 1) * pixelsPerPage cfg) (img.width * img.height)
                startIndex := m * pixelsPerPage cfg * 4
                endIndex := min ((m + 1) * pixelsPerPage cfg) (img.width * img.height) * 4 })])
        = (List.range (m + 1)).map (fun j =>
            (j, storedPage img.data (pixelsPerPage cfg) (img.width * img.height) s.now j
              (storedStatus (cap cfg) (m + 1) j))) := by
      rw [List.range_succ, List.map_append, List.map_cons, List.map_nil]
      congr 1
      · apply List.map_congr_left
        intro j hj
        rw [List.mem_range] at hj
        have hs : storedStatus (cap cfg) m j = storedStatus (cap cfg) (m + 1) j := by
          unfold storedStatus
          rw [if_pos (by omega), if_pos (by omega)]
        rw [hs]
      · have hs : storedStatus (cap cfg) (m + 1) m = Status.active := by
          unfold storedStatus
          exact if_pos (by omega)
        rw [hs, storedPage_active_eq]
    rw [htable]
    rw [show ((min m (cap cfg) : ℕ) : ℤ) + 1 = ((min (m + 1) (cap cfg) : ℕ) : ℤ) from by
      push_cast; omega]
    rw [show ((min m (cap cfg) : ℕ) : ℚ) * cfg.pageSize + cfg.pageSize
        = ((min (m + 1) (cap cfg) : ℕ) : ℚ) * cfg.pageSize from by
      rw [e1, e2]; push_cast; ring]
    rw [show m - min m (cap cfg) = m + 1 - min (m + 1) (cap cfg) from by omega]
    rw [show s.now + m + 1 = s.now + (m + 1) from by omega]
  · have e1 : min m (cap cfg) = cap cfg := by omega
    have e2 : min (m + 1) (cap cfg) = cap cfg := by omega
    have hc1 : (((min m (cap cfg) : ℕ) : ℚ) * cfg.pageSize + cfg.pageSize
        > cfg.memoryLimit) := by
      have heq : ((min m (cap cfg) : ℕ) : ℚ) * cfg.pageSize + cfg.pageSize
          = ((min m (cap cfg) + 1 : ℕ) : ℚ) * cfg.pageSize := by push_cast; ring
      rw [heq, cap_spec cfg hpS hmL]
      omega
    rw [if_pos hc1]
    have htab :
        ((List.range m).map (fun j =>
            (j, storedPage img.data (pixelsPerPage cfg) (img.width * img.height) s.now j
              (storedStatus (cap cfg) m j)))
          ++ [(m,
              { data := some ((img.data.drop (m * pixelsPerPage cfg * 4)).take
                  (min ((m + 1) * pixelsPerPage cfg) (img.width * img.height) * 4
                    - m * pixelsPerPage cfg * 4))
                status := Status.active
                lastAccessed := s.now + m
                startPixel := m * pixelsPerPage cfg
                endPixel := min ((m + 1) * pixelsPerPage cfg) (img.width * img.height)
                startIndex := m * pixelsPerPage cfg * 4
                endIndex := min ((m + 1) * pixelsPerPage cfg) (img.width * img.height) * 4 })])
        = (List.range (m + 1)).map (fun j =>
            (j, storedPage img.data (pixelsPerPage cfg) (img.width * img.height) s.now j
              (if m - cap cfg ≤ j then Status.active else Status.inactive))) := by
      rw [List.range_succ, List.map_append, List.map_cons, List.map_nil]
      congr 1
      · apply List.map_congr_left
        intro j hj
        have hs : storedStatus (cap cfg) m j
            = if m - cap cfg ≤ j then Status.active else Status.inactive := by
          unfold storedStatus
          rw [e1]
        rw [hs]
      · rw [if_pos (by omega), storedPage_active_eq]
    rw [htab]
    rw [swapOutLRUPage_range_map cfg _ _ _ (m + 1) _ (m - cap cfg) (by omega)
      (by rw [storedPage_status, if_pos (by omega)])
      (by
        intro j hjlt
        rw [storedPage_status, if_neg (by omega)]
        intro hcontra
        cases hcontra)
      (by
        intro j hjgt hjk _
        rw [storedPage_lastAccessed, storedPage_lastAccessed]
        omega)]
    have htab2 :
        (List.range (m + 1)).map (fun j =>
            (j, if j = m - cap cfg then
              { storedPage img.data (pixelsPerPage cfg) (img.width * img.height) s.now j
                  (if m - cap cfg ≤ j then Status.active else Status.inactive) with
                status := Status.inactive, data := none }
              else storedPage img.data (pixelsPerPage cfg) (img.width * img.height) s.now j
                (if m - cap cfg ≤ j then Status.active else Status.inactive)))
          = (List.range (m + 1)).map (fun j =>
              (j, storedPage img.data (pixelsPerPage cfg) (img.width * img.height) s.now j
                (storedStatus (cap cfg) (m + 1) j))) := by
      apply List.map_congr_left
      intro j hj
      rw [List.mem_range] at hj
      by_cases hje : j = m - cap cfg
      · rw [if_pos hje, storedPage_evict]
        have hs : storedStatus (cap cfg) (m + 1) j = Status.inactive := by
          unfold storedStatus
          exact if_neg (by omega)
        rw [hs]
      · rw [if_neg hje]
        have hs : (if m - cap cfg ≤ j then Status.active else Status.inactive)
            = storedStatus (cap cfg) (m + 1) j := by
          unfold storedStatus
          by_cases hle : m - cap cfg ≤ j
          · rw [if_pos hle, if_pos (by omega)]
          · rw [if_neg hle, if_neg (by omega)]
        rw [hs]
    rw [htab2]
    rw [show ((min m (cap cfg) : ℕ) : ℤ) + 1 - 1 = ((min (m + 1) (cap cfg) : ℕ) : ℤ) from by
      push_cast; omega]
    rw [show ((m - min m (cap cfg) : ℕ) : ℤ) + 1 = ((m + 1 - min (m + 1) (cap cfg) : ℕ) : ℤ)
      from by omega]
    rw [show ((min m (cap cfg) : ℕ) : ℚ) * cfg.pageSize + cfg.pageSize - cfg.pageSize
        = ((min (m + 1) (cap cfg) : ℕ) : ℚ) * cfg.pageSize from by rw [e1, e2]; ring]
    rw [show s.now + m + 1 = s.now + (m + 1) from by omega]
    rw [List.append_assoc]
    rw [show (List.range (m - min m (cap cfg))).map Event.swappedOut
          ++ [Event.swappedOut (m - cap cfg)]
        = (List.range (m + 1 - min (m + 1) (cap cfg))).map Event.swappedOut from by
      rw [e1, e2, show m + 1 - cap cfg = (m - cap cfg) + 1 from by omega, List.range_succ,
        List.map_append, List.map_cons, List.map_nil]]

theorem foldl_admitPage_stored (cfg : Config) (img : ImageData) (s : MMState)
    (hpS : 0 < cfg.pageSize) (hmL : 0 ≤ cfg.memoryLimit) (m : ℕ) :
    (List.range m).foldl
        (admitPage cfg img.data (pixelsPerPage cfg) (img.width * img.height))
        (storedState cfg img s 0)
      = storedState cfg img s m := by
  induction m with
  | zero => rfl
  | succ m ih =>
      rw [List.range_succ, List.foldl_append, ih, List.foldl_cons, List.foldl_nil]
      exact admitPage_stored cfg img s hpS hmL m

/-- C3 amended: `storeImage` admits pages one at a time in ascending
`pageId` order, evicting the current least-recently-used Resident page
whenever the budget is exceeded; since earlier pages are always LESS
recently touched at admission time (their timestamps are older), under a
tight budget the LOWEST-numbered pages are the ones evicted first. The
final state is exactly `storedState` at `totalPages`: pages in ascending
index order, the resident set being the `min totalPages cap`
highest-numbered pages, the evicted set the lowest-numbered remainder, and
the swap-out signals emitted for pages `0, 1, ...` in ascending order. -/
theorem C3_amended_storeImage_evicts_lowest_numbered_pages (cfg : Config)
    (s : MMState) (img : ImageData)
    (hpS : 0 < cfg.pageSize) (hmL : 0 ≤ cfg.memoryLimit) :
    storeImage cfg s img
      = updateMemoryStats (storedState cfg img s
          ((img.width * img.height + pixelsPerPage cfg - 1) / pixelsPerPage cfg)) := by
  have hdef : storeImage cfg s img
      = updateMemoryStats
          ((List.range ((img.width * img.height + pixelsPerPage cfg - 1) / pixelsPerPage cfg)).foldl
            (admitPage cfg img.data (pixelsPerPage cfg) (img.width * img.height))
            ⟨[], ⟨0, 0, 0, 0, 0, img.width, img.height, img.width * img.height,
              (img.width * img.height + pixelsPerPage cfg - 1) / pixelsPerPage cfg⟩,
             s.now, s.events ++ [Event.statsUpdated Stats.init]⟩) := rfl
  have h0 : (⟨[], ⟨0, 0, 0, 0, 0, img.width, img.height, img.width * img.height,
        (img.width * img.height + pixelsPerPage cfg - 1) / pixelsPerPage cfg⟩,
       s.now, s.events ++ [Event.statsUpdated Stats.init]⟩ : MMState)
      = storedState cfg img s 0 := by
    unfold storedState
    simp
  rw [hdef, h0, foldl_admitPage_stored cfg img s hpS hmL]

attribute [local semireducible] Rat.add Rat.mul Rat.sub Rat.inv in
/-- C3 witness: the rebuild characterisation applied to the concrete
two-unit-budget store of a three-page image (where page 0 — the lowest —
ends up evicted, as the counterexample exhibits directly). -/
theorem C3_amended_storeImage_evicts_lowest_numbered_pages_witness :
    (0 < cfgUnit2.pageSize ∧ 0 ≤ cfgUnit2.memoryLimit)
      ∧ storeImage cfgUnit2 sEmpty img3x1
          = updateMemoryStats (storedState cfgUnit2 img3x1 sEmpty
              ((img3x1.width * img3x1.height + pixelsPerPage cfgUnit2 - 1)
                / pixelsPerPage cfgUnit2)) :=
  ⟨⟨by decide, by decide⟩,
    C3_amended_storeImage_evicts_lowest_numbered_pages cfgUnit2 sEmpty img3x1
      (by decide) (by decide)⟩

end ImageEditorVM
